import Mathlib

/-!
Shallow embedding of the release decision engine of `dobby`
(`src/releases/git.rs`, `src/releases/semver.rs`,
`src/releases/conventional_commits.rs`, `src/step/releases/changesets.rs`).

Strings are modelled on top of `List Char` with structural recursion so that
every definition evaluates inside the kernel.  The helpers below model the
exact Rust standard-library / `semver`-crate operations the source uses
(`str::starts_with`, `str::replace`, `str::split`, `semver::Version::parse`,
`semver::Prerelease::new`, `str::parse::<u16>`).
-/

deriving instance DecidableEq for Except

namespace Dobby

/-- Numeric value of a list of ASCII digit characters (most significant first),
the way Rust's integer parsing accumulates digits. -/
def digitsToNat (l : List Char) : Nat :=
  l.foldl (fun n c => n * 10 + (c.toNat - 48)) 0

/-- The decimal digit characters, as Rust's integer formatting emits them. -/
def digitChar (d : Nat) : Char :=
  match d with
  | 0 => '0'
  | 1 => '1'
  | 2 => '2'
  | 3 => '3'
  | 4 => '4'
  | 5 => '5'
  | 6 => '6'
  | 7 => '7'
  | 8 => '8'
  | _ => '9'

/-- Fuel-indexed decimal printer (most significant digit first); the fuel
`n + 1` always suffices for printing `n`. -/
def natToDigits : Nat → Nat → List Char → List Char
  | 0, _, acc => acc
  | fuel + 1, n, acc =>
    if n < 10 then digitChar n :: acc
    else natToDigits fuel (n / 10) (digitChar (n % 10) :: acc)

/-- Rust's `Display` for unsigned integers: plain decimal digits. -/
def natToDecimal (n : Nat) : String :=
  String.mk (natToDigits (n + 1) n [])

/-- `str::starts_with` on character lists. -/
def charsStartsWith : List Char → List Char → Bool
  | _, [] => true
  | [], _ :: _ => false
  | c :: cs, p :: ps => c = p && charsStartsWith cs ps

/-- `str::starts_with`. -/
def strStartsWith (s pat : String) : Bool :=
  charsStartsWith s.data pat.data

/-- Fuel-indexed worker for `str::replace`: replaces every non-overlapping
leftmost occurrence of `pat` by `repl`.  The fuel is the length of the
remaining input, enough whenever `pat` is nonempty. -/
def charsReplaceAux (pat repl : List Char) : List Char → Nat → List Char
  | s, 0 => s
  | [], _ + 1 => []
  | c :: rest, fuel + 1 =>
    if charsStartsWith (c :: rest) pat then
      repl ++ charsReplaceAux pat repl ((c :: rest).drop pat.length) fuel
    else
      c :: charsReplaceAux pat repl rest fuel

/-- `str::replace` (all occurrences). -/
def strReplace (s pat repl : String) : String :=
  String.mk (charsReplaceAux pat.data repl.data s.data s.data.length)

/-- `str::split` on a single separator character (keeps empty pieces,
`"" ↦ [""]`, exactly like Rust's `split`). -/
def splitOnChar (sep : Char) : List Char → List (List Char)
  | [] => [[]]
  | c :: rest =>
    match splitOnChar sep rest with
    | h :: t => if c = sep then [] :: h :: t else (c :: h) :: t
    | [] => if c = sep then [[], []] else [[c]]

/-- Split a character list at the first occurrence of `sep`;
`none` when `sep` does not occur. -/
def splitFirst (sep : Char) : List Char → Option (List Char × List Char)
  | [] => none
  | c :: rest =>
    if c = sep then some ([], rest)
    else (splitFirst sep rest).map (fun p => (c :: p.1, p.2))

/-- `semver::Version`, with the prerelease identifier list kept as the raw
string exactly as the `semver` crate does (`pre = ""` means "no prerelease").
Build metadata never influences the engine and is discarded at parse time. -/
structure Version where
  major : Nat
  minor : Nat
  patch : Nat
  pre : String
deriving DecidableEq, Repr

/-- A valid numeric core part (major/minor/patch): nonempty ASCII digits,
no leading zero, and it must fit in a `u64`. -/
def validNumPart (l : List Char) : Bool :=
  !l.isEmpty && l.all Char.isDigit &&
    (l = ['0'] || l.headD ' ' ≠ '0') &&
    digitsToNat l < 18446744073709551616

/-- Characters allowed in prerelease / build identifiers. -/
def identChar (c : Char) : Bool :=
  c.isAlphanum || c = '-'

/-- A valid prerelease identifier: nonempty, alphanumeric-or-hyphen, and a
purely numeric identifier must not have a leading zero. -/
def validPreIdent (l : List Char) : Bool :=
  !l.isEmpty && l.all identChar &&
    (!l.all Char.isDigit || l = ['0'] || l.headD ' ' ≠ '0')

/-- `semver::Prerelease::new` validity for a nonempty string:
dot-separated valid prerelease identifiers. -/
def validPreChars (l : List Char) : Bool :=
  (splitOnChar '.' l).all validPreIdent

/-- `semver::Prerelease::new`: the empty string is the empty prerelease,
anything else must be dot-separated valid identifiers. -/
def validPre (s : String) : Bool :=
  s.data.isEmpty || validPreChars s.data

/-- A valid build identifier: nonempty, alphanumeric-or-hyphen
(leading zeros are allowed in build metadata). -/
def validBuildIdent (l : List Char) : Bool :=
  !l.isEmpty && l.all identChar

/-- `semver::Version::parse`: `MAJOR.MINOR.PATCH[-PRE][+BUILD]`.  The build
metadata is validated and then discarded (it never affects the engine). -/
def Version.parse (s : String) : Option Version :=
  let (core, build) :=
    match splitFirst '+' s.data with
    | some p => (p.1, some p.2)
    | none => (s.data, none)
  let (triple, pre) :=
    match splitFirst '-' core with
    | some p => (p.1, some p.2)
    | none => (core, none)
  match splitOnChar '.' triple with
  | [ma, mi, pa] =>
    if validNumPart ma && validNumPart mi && validNumPart pa &&
        (match pre with
         | some l => validPreChars l
         | none => true) &&
        (match build with
         | some l => (splitOnChar '.' l).all validBuildIdent
         | none => true) then
      some {
        major := digitsToNat ma
        minor := digitsToNat mi
        patch := digitsToNat pa
        pre := String.mk (pre.getD []) }
    else
      none
  | _ => none

/-- Comparison of two prerelease identifiers per SemVer: numeric identifiers
compare numerically and are lower than alphanumeric ones; alphanumeric
identifiers compare bytewise (ASCII). -/
def cmpIdent (a b : List Char) : Ordering :=
  match a.all Char.isDigit, b.all Char.isDigit with
  | true, true => compare (digitsToNat a) (digitsToNat b)
  | true, false => .lt
  | false, true => .gt
  | false, false => compare (String.mk a) (String.mk b)

/-- Lexicographic comparison of identifier lists; a strict prefix is lower. -/
def cmpIdentList : List (List Char) → List (List Char) → Ordering
  | [], [] => .eq
  | [], _ :: _ => .lt
  | _ :: _, [] => .gt
  | a :: as, b :: bs => (cmpIdent a b).then (cmpIdentList as bs)

/-- Comparison of prerelease strings with the same stable triple: an empty
prerelease (a stable release) is greater than any nonempty one. -/
def cmpPre (a b : String) : Ordering :=
  match a.data.isEmpty, b.data.isEmpty with
  | true, true => .eq
  | true, false => .gt
  | false, true => .lt
  | false, false => cmpIdentList (splitOnChar '.' a.data) (splitOnChar '.' b.data)

/-- SemVer precedence: compare the triple lexicographically, then the
prerelease. -/
def Version.cmp (a b : Version) : Ordering :=
  (compare a.major b.major).then
    ((compare a.minor b.minor).then
      ((compare a.patch b.patch).then (cmpPre a.pre b.pre)))

/-- Strict SemVer order. -/
def Version.lt (a b : Version) : Prop :=
  Version.cmp a b = .lt

/-- Non-strict SemVer order. -/
def Version.le (a b : Version) : Prop :=
  Version.cmp a b ≠ .gt

instance (a b : Version) : Decidable (Version.lt a b) := by
  unfold Version.lt; infer_instance

instance (a b : Version) : Decidable (Version.le a b) := by
  unfold Version.le; infer_instance

/-- `CurrentVersions` from `src/releases/mod.rs`. -/
structure CurrentVersions where
  stable : Version
  prerelease : Option Version
deriving DecidableEq, Repr

/-- `CurrentVersions::default()`: `0.0.0`, no prerelease. -/
def CurrentVersions.default : CurrentVersions :=
  { stable := ⟨0, 0, 0, ""⟩, prerelease := none }

/-- `CurrentVersions::latest`: the prerelease when present, else stable. -/
def CurrentVersions.latest (cv : CurrentVersions) : Version :=
  cv.prerelease.getD cv.stable

/-- The tag pattern built in `get_current_versions_from_tag`:
`"<prefix>/v"` when a package prefix is given, else `"v"`. -/
def tagPattern (pfx : Option String) : String :=
  match pfx with
  | none => "v"
  | some p => p ++ "/v"

/-- One iteration of the tag loop in `get_current_versions_from_tag`
(`src/releases/git.rs` lines 71-84).  State is the pair
`(stable, prerelease)` of `Option Version`. -/
def resolveStep (pat : String) (st : Option Version × Option Version)
    (tag : String) : Option Version × Option Version :=
  if strStartsWith tag pat then
    match Version.parse (strReplace tag pat "") with
    | some version =>
      if version.pre = "" then
        (some version, none)
      else
        (st.1, some (st.2.getD version))
    | none => st
  else
    st

/-- `get_current_versions_from_tag` (`src/releases/git.rs` lines 49-86),
with the repository's tag enumeration abstracted as the input list `tags`. -/
def getCurrentVersionsFromTag (pfx : Option String) (tags : List String) :
    Option CurrentVersions :=
  let res := tags.foldl (resolveStep (tagPattern pfx)) (none, none)
  res.1.map fun s => { stable := s, prerelease := res.2 }

/-- The candidate a ref contributes: it must carry the pattern as a literal
prefix and the string obtained by `str::replace`-ing the pattern must parse
as a semantic version. -/
def candVersion (pat tag : String) : Option Version :=
  if strStartsWith tag pat then Version.parse (strReplace tag pat "") else none

/-- The stable candidate a ref contributes (empty prerelease field). -/
def stableCand (pat tag : String) : Option Version :=
  match candVersion pat tag with
  | some v => if v.pre = "" then some v else none
  | none => none

/-- The prerelease candidate a ref contributes (nonempty prerelease field). -/
def preCand (pat tag : String) : Option Version :=
  match candVersion pat tag with
  | some v => if v.pre = "" then none else some v
  | none => none

/-- The last stable candidate of a ref list together with the refs that
follow it (preferring later occurrences). -/
def lastStableAndRest (pat : String) : List String → Option (Version × List String)
  | [] => none
  | t :: rest =>
    match lastStableAndRest pat rest with
    | some r => some r
    | none => (stableCand pat t).map fun v => (v, rest)

/-- The first prerelease candidate of a ref list. -/
def firstPreCand (pat : String) : List String → Option Version
  | [] => none
  | t :: rest => (preCand pat t).orElse fun _ => firstPreCand pat rest

/-- `ConventionalRule` (`src/releases/semver.rs`). -/
inductive ConventionalRule
  | major
  | minor
  | patch
deriving DecidableEq, Repr

/-- `Rule` (`src/releases/semver.rs`). -/
inductive Rule
  | major
  | minor
  | patch
  | pre (label : String) (stableRule : ConventionalRule)
  | release
deriving DecidableEq, Repr

/-- The `StepError` variants reachable from `bump`. -/
inductive StepError
  | invalidPreReleaseVersion (msg : String)
deriving DecidableEq, Repr

/-- The `Rule::Major` / `Rule::Minor` / `Rule::Patch` arms of `bump`
(`src/releases/semver.rs` lines 182-200): the zero-major special case routes
`Major` to the minor component and `Minor` to the patch component; the
prerelease was taken out of the state and the stable's own prerelease tag is
cleared.  The components are `u64`, so the `+= 1` increments wrap at `2^64`
like release-mode Rust arithmetic (a debug build panics at `u64::MAX`
instead). -/
def bumpStableRule (v : CurrentVersions) (r : ConventionalRule) : CurrentVersions :=
  let s := v.stable
  let is0 := s.major = 0
  match r with
  | .major =>
    if is0 then
      { stable :=
          { s with
              minor := (s.minor + 1) % 18446744073709551616,
              patch := 0,
              pre := "" },
        prerelease := none }
    else
      { stable :=
          { s with
              major := (s.major + 1) % 18446744073709551616,
              minor := 0,
              patch := 0,
              pre := "" },
        prerelease := none }
  | .minor =>
    if is0 then
      { stable :=
          { s with
              patch := (s.patch + 1) % 18446744073709551616,
              pre := "" },
        prerelease := none }
    else
      { stable :=
          { s with
              minor := (s.minor + 1) % 18446744073709551616,
              patch := 0,
              pre := "" },
        prerelease := none }
  | .patch =>
    { stable :=
        { s with
            patch := (s.patch + 1) % 18446744073709551616,
            pre := "" },
      prerelease := none }

/-- Rust `str::parse::<u16>`: optional leading `+`, ASCII digits (leading
zeros allowed), value below `2^16`. -/
def parseU16 (s : String) : Option Nat :=
  let t := if strStartsWith s "+" then s.data.tail else s.data
  if !t.isEmpty && t.all Char.isDigit && digitsToNat t < 65536 then
    some (digitsToNat t)
  else
    none

/-- `bump_pre` (`src/releases/semver.rs` lines 468-501).  `stableOnly` is the
state with the prerelease already taken out; the increment of the `u16`
suffix wraps at `2^16` like release-mode Rust arithmetic. -/
def bumpPre (stableOnly : CurrentVersions) (prerelease : Option Version)
    (label : String) (stableRule : ConventionalRule) :
    Except StepError CurrentVersions :=
  let stable := stableOnly.stable
  let nextStable := (bumpStableRule stableOnly stableRule).stable
  let preString :=
    (prerelease.bind fun p =>
      if p.major ≠ nextStable.major || p.minor ≠ nextStable.minor ||
          p.patch ≠ nextStable.patch then
        none
      else
        let parts := splitOnChar '.' p.pre.data
        if parts.length ≠ 2 || parts.headD [] ≠ label.data then
          none
        else
          (parseU16 (String.mk (parts.getD 1 []))).map fun n =>
            label ++ "." ++ natToDecimal ((n + 1) % 65536)
    ).getD (label ++ ".0")
  if validPre preString then
    .ok { stable := stable, prerelease := some { nextStable with pre := preString } }
  else
    .error (.invalidPreReleaseVersion preString)

/-- `bump` (`src/releases/semver.rs` lines 178-213). -/
def bump (v : CurrentVersions) (rule : Rule) : Except StepError CurrentVersions :=
  match rule with
  | .major => .ok (bumpStableRule v .major)
  | .minor => .ok (bumpStableRule v .minor)
  | .patch => .ok (bumpStableRule v .patch)
  | .release =>
    match v.prerelease with
    | none =>
      .error (.invalidPreReleaseVersion
        "No prerelease version found, but a Release rule was requested")
    | some p =>
      .ok { stable := { p with pre := "" }, prerelease := none }
  | .pre label stableRule =>
    bumpPre { stable := v.stable, prerelease := none } v.prerelease label stableRule

/-- The current-versions derivation of `get_version`
(`src/releases/semver.rs` lines 132-148): `fileVersion` is the consistent
version reported by the versioned files (when any), `tags` the repository's
refs. -/
def getVersionCurrent (fileVersion : Option Version) (tags : List String) :
    CurrentVersions :=
  match fileVersion with
  | none => (getCurrentVersionsFromTag none tags).getD CurrentVersions.default
  | some stable =>
    if stable.pre = "" then
      { stable := stable, prerelease := none }
    else
      { stable :=
          match getCurrentVersionsFromTag none tags with
          | none => ⟨0, 0, 0, ""⟩
          | some cv => cv.stable,
        prerelease := some stable }

/-- A parsed conventional commit, at the level of detail
`git_conventional::Commit` exposes to `from_commits`: type, optional scope,
description, optional `BREAKING CHANGE:` footer text, and the `!` marker. -/
structure Commit where
  typ : String
  scope : Option String
  description : String
  breakingFooter : Option String
  bang : Bool
deriving DecidableEq, Repr

/-- `git_conventional::Commit::breaking_description`: the footer text when a
`BREAKING CHANGE:` footer is present, else the commit's own description when
the `!` marker is set, else `none`. -/
def breakingDescription (c : Commit) : Option String :=
  c.breakingFooter.orElse fun _ => if c.bang then some c.description else none

/-- The scope filter closure of `ConventionalCommits::from_commit_messages`
(`src/releases/conventional_commits.rs` lines 33-42). -/
def commitApplies (considerScopes : Bool) (pkgScopes : Option (List String))
    (c : Commit) : Bool :=
  if !considerScopes then
    true
  else
    match c.scope, pkgScopes with
    | none, _ => true
    | some _, none => false
    | some scope, some scopes => scopes.contains scope

/-- The commit selection of `from_commit_messages`, over already-parsed
commits (message parsing itself is the external `git_conventional` crate). -/
def selectCommits (considerScopes : Bool) (pkgScopes : Option (List String))
    (commits : List Commit) : List Commit :=
  commits.filter (commitApplies considerScopes pkgScopes)

/-- The accumulator of `ConventionalCommits::from_commits`. -/
structure ConvCommits where
  rule : Option ConventionalRule
  features : List String
  fixes : List String
  breakingChanges : List String
deriving DecidableEq, Repr

/-- The `feat` / `fix` type handling at the bottom of the loop body of
`from_commits` (lines 71-89): `feat` records a feature and sets the rule to
`Minor` unless it is already `Major`; `fix` records a fix and sets the rule
to `Patch` only when no rule is set yet. -/
def typeStep (acc : ConvCommits) (c : Commit) : ConvCommits :=
  if c.typ = "feat" then
    { acc with
      features := acc.features ++ [c.description],
      rule := if acc.rule = some .major then acc.rule else some .minor }
  else if c.typ = "fix" then
    { acc with
      rule := if acc.rule = none then some .patch else acc.rule,
      fixes := acc.fixes ++ [c.description] }
  else
    acc

/-- One iteration of the loop of `from_commits` (lines 54-90): a breaking
description upgrades the rule to `Major` and is recorded; when it coincides
with the commit's description the type handling is skipped (`continue`). -/
def processCommit (acc : ConvCommits) (c : Commit) : ConvCommits :=
  match breakingDescription c with
  | some bm =>
    let acc1 : ConvCommits :=
      { acc with
        rule := if acc.rule = some .major then acc.rule else some .major,
        breakingChanges := acc.breakingChanges ++ [bm] }
    if bm = c.description then acc1 else typeStep acc1 c
  | none => typeStep acc c

/-- `ConventionalCommits::from_commits`
(`src/releases/conventional_commits.rs` lines 48-98). -/
def fromCommits (commits : List Commit) : ConvCommits :=
  commits.foldl processCommit ⟨none, [], [], []⟩

/-- `from_commit_messages` after parsing: select the commits that apply to
the package, then run `from_commits`. -/
def fromSelectedCommits (considerScopes : Bool) (pkgScopes : Option (List String))
    (commits : List Commit) : ConvCommits :=
  fromCommits (selectCommits considerScopes pkgScopes commits)

/-- The severity a single commit contributes: `Major` when it carries a
breaking description, else `Minor` for `feat`, `Patch` for `fix`, nothing
otherwise. -/
def commitSeverity (c : Commit) : Option ConventionalRule :=
  match breakingDescription c with
  | some _ => some .major
  | none =>
    if c.typ = "feat" then some .minor
    else if c.typ = "fix" then some .patch
    else none

/-- Rank of an optional severity, for taking maxima. -/
def sevRank : Option ConventionalRule → Nat
  | none => 0
  | some .patch => 1
  | some .minor => 2
  | some .major => 3

/-- Maximum of two optional severities (ties keep the left value; severities
of equal rank are equal anyway). -/
def sevMax (a b : Option ConventionalRule) : Option ConventionalRule :=
  if sevRank b ≤ sevRank a then a else b

/-- Folding a commit's severity into the running rule. -/
def sevStep (r : Option ConventionalRule) (c : Commit) : Option ConventionalRule :=
  sevMax r (commitSeverity c)

/-- A changeset entry as distributed to a package: the on-disk file name of
its change file (`change.unique_id.to_file_name()`) plus its summary. -/
structure ChangeEntry where
  fileName : String
  summary : String
deriving DecidableEq, Repr

/-- A package as seen by `add_releases_from_changeset`: its optional name
and its accumulated pending changes. -/
structure PackageCS where
  name : Option String
  pendingChanges : List ChangeEntry
deriving DecidableEq, Repr

/-- `DEFAULT_CHANGESET_PACKAGE_NAME`. -/
def defaultChangesetPackageName : String := "default"

/-- `HashMap::remove` on an association list keyed by package name:
the looked-up value (if any) and the map without that key. -/
def removeKey (key : String) :
    List (String × List ChangeEntry) →
      Option (List ChangeEntry) × List (String × List ChangeEntry)
  | [] => (none, [])
  | (k, v) :: rest =>
    if k = key then
      (some v, rest)
    else
      let r := removeKey key rest
      (r.1, (k, v) :: r.2)

/-- The inner loop of `add_releases_from_changeset` over one package's
changes (`src/step/releases/changesets.rs` lines 163-180).  State:
`deleted` models the `changesets_deleted` set, `dels` the files actually
removed from disk (`std::fs::remove_file`; nothing is removed in a dry run,
which only prints what it would delete). -/
def processChanges (isPrerelease dryRun : Bool) :
    List ChangeEntry → List String → List String → List String × List String
  | [], deleted, dels => (deleted, dels)
  | ch :: rest, deleted, dels =>
    if !deleted.contains ch.fileName && !isPrerelease then
      processChanges isPrerelease dryRun rest (deleted ++ [ch.fileName])
        (if dryRun then dels else dels ++ [ch.fileName])
    else
      processChanges isPrerelease dryRun rest deleted dels

/-- The package map of `add_releases_from_changeset` (lines 153-184): each
package removes its releases entry from the changeset, extends its pending
changes with the entry's changes, and the shared deletion bookkeeping is
threaded through. -/
def processPackages (isPrerelease dryRun : Bool) :
    List PackageCS → List (String × List ChangeEntry) → List String →
      List String → List PackageCS × List String
  | [], _, _, dels => ([], dels)
  | pkg :: rest, releases, deleted, dels =>
    match removeKey (pkg.name.getD defaultChangesetPackageName) releases with
    | (none, releases') =>
      let r := processPackages isPrerelease dryRun rest releases' deleted dels
      (pkg :: r.1, r.2)
    | (some changes, releases') =>
      let st := processChanges isPrerelease dryRun changes deleted dels
      let pkg' := { pkg with pendingChanges := pkg.pendingChanges ++ changes }
      let r := processPackages isPrerelease dryRun rest releases' st.1 st.2
      (pkg' :: r.1, r.2)

/-- `add_releases_from_changeset` (`src/step/releases/changesets.rs` lines
142-185) with the loaded changeset abstracted as the association list
`releases` (package name to changes).  Returns the updated packages and the
list of change files actually deleted. -/
def addReleasesFromChangeset (packages : List PackageCS) (isPrerelease dryRun : Bool)
    (releases : List (String × List ChangeEntry)) : List PackageCS × List String :=
  processPackages isPrerelease dryRun packages releases [] []

/-- Comparison of the stable triples of two versions (the ordering of
`StableVersion`, ignoring any prerelease tag). -/
def tripleCmp (a b : Version) : Ordering :=
  (compare a.major b.major).then
    ((compare a.minor b.minor).then (compare a.patch b.patch))

/-- The `CurrentVersions` invariant claimed by the specification: when a
prerelease is present, its stable component is at least the stable field. -/
def versionsInvariant (cv : CurrentVersions) : Bool :=
  match cv.prerelease with
  | none => true
  | some p => tripleCmp cv.stable p != .gt

theorem natCompare_self (a : Nat) : compare a a = .eq :=
  Nat.compare_eq_eq.2 rfl

theorem natCompare_lt {a b : Nat} (h : a < b) : compare a b = .lt :=
  Nat.compare_eq_lt.2 h

theorem versionCmp_eq_then (a b : Version) :
    Version.cmp a b = (tripleCmp a b).then (cmpPre a.pre b.pre) := by
  unfold Version.cmp tripleCmp
  cases compare a.major b.major <;> cases compare a.minor b.minor <;>
    cases compare a.patch b.patch <;> rfl

theorem tripleCmp_bumpStable (v : CurrentVersions) (r : ConventionalRule)
    (hmaj : v.stable.major < 18446744073709551615)
    (hmin : v.stable.minor < 18446744073709551615)
    (hpat : v.stable.patch < 18446744073709551615) :
    tripleCmp v.stable (bumpStableRule v r).stable = .lt := by
  have e1 : (v.stable.major + 1) % 18446744073709551616 = v.stable.major + 1 :=
    Nat.mod_eq_of_lt (by omega)
  have e2 : (v.stable.minor + 1) % 18446744073709551616 = v.stable.minor + 1 :=
    Nat.mod_eq_of_lt (by omega)
  have e3 : (v.stable.patch + 1) % 18446744073709551616 = v.stable.patch + 1 :=
    Nat.mod_eq_of_lt (by omega)
  cases r <;> by_cases h : v.stable.major = 0 <;>
    simp [bumpStableRule, h, e1, e2, e3, tripleCmp, natCompare_self,
      natCompare_lt (Nat.lt_succ_self _), Ordering.then]

theorem bumpStableRule_pre (v : CurrentVersions) (r : ConventionalRule) :
    (bumpStableRule v r).prerelease = none := by
  cases r <;> by_cases h : v.stable.major = 0 <;> simp [bumpStableRule, h]

theorem bumpPre_ok_shape {so : CurrentVersions} {pr : Option Version}
    {label : String} {sr : ConventionalRule} {res : CurrentVersions}
    (h : bumpPre so pr label sr = .ok res) :
    res.stable = so.stable ∧
      ∃ ps, res.prerelease = some ⟨(bumpStableRule so sr).stable.major,
        (bumpStableRule so sr).stable.minor,
        (bumpStableRule so sr).stable.patch, ps⟩ := by
  simp only [bumpPre] at h
  split at h
  · cases h
    exact ⟨rfl, _, rfl⟩
  · cases h

end Dobby

namespace Dobby

/-- C2 counterexample: the version components are `u64`, so at `u64::MAX`
(reachable through `Version::parse`) the `Major` increment wraps to 0 in a
release build instead of producing `u64::MAX + 1` (a debug build panics);
the unconditional increment claim fails at that input. -/
theorem c2_increment_wraps_at_u64_max :
    bump ⟨⟨18446744073709551615, 0, 0, ""⟩, none⟩ .major =
      .ok ⟨⟨0, 0, 0, ""⟩, none⟩ ∧
    (Except.ok ⟨⟨0, 0, 0, ""⟩, none⟩ : Except StepError CurrentVersions) ≠
      .ok ⟨⟨18446744073709551616, 0, 0, ""⟩, none⟩ := by
  decide

/-- C2 amended: the primary rules behave as claimed, with the `u64`
increments computed modulo `2^64` (so `u64::MAX` wraps to 0): with a zero
major, `Major` bumps the minor (major stays put) and `Minor` bumps the patch
(minor unchanged); `Patch` always bumps the patch; with a nonzero major each
rule bumps its own component and resets the lower ones; and the result never
carries a prerelease, whatever the input had. -/
theorem c2_amended_primary_rules_wrap (v : CurrentVersions) :
    (v.stable.major = 0 →
      bump v .major =
        .ok ⟨⟨v.stable.major, (v.stable.minor + 1) % 18446744073709551616, 0, ""⟩,
          none⟩ ∧
      bump v .minor =
        .ok ⟨⟨v.stable.major, v.stable.minor,
          (v.stable.patch + 1) % 18446744073709551616, ""⟩, none⟩) ∧
    (v.stable.major ≠ 0 →
      bump v .major =
        .ok ⟨⟨(v.stable.major + 1) % 18446744073709551616, 0, 0, ""⟩, none⟩ ∧
      bump v .minor =
        .ok ⟨⟨v.stable.major, (v.stable.minor + 1) % 18446744073709551616, 0, ""⟩,
          none⟩) ∧
    bump v .patch =
      .ok ⟨⟨v.stable.major, v.stable.minor,
        (v.stable.patch + 1) % 18446744073709551616, ""⟩, none⟩ := by
  refine ⟨fun h => ⟨?_, ?_⟩, fun h => ⟨?_, ?_⟩, ?_⟩ <;>
    simp [bump, bumpStableRule, *]

theorem c2_amended_primary_rules_wrap_witness :
    bump ⟨⟨0, 1, 2, ""⟩, some ⟨9, 9, 9, "rc.1"⟩⟩ .major =
      .ok ⟨⟨0, 2, 0, ""⟩, none⟩ ∧
    bump ⟨⟨1, 2, 3, ""⟩, some ⟨9, 9, 9, "rc.1"⟩⟩ .minor =
      .ok ⟨⟨1, 3, 0, ""⟩, none⟩ := by
  constructor
  · exact (((c2_amended_primary_rules_wrap
      ⟨⟨0, 1, 2, ""⟩, some ⟨9, 9, 9, "rc.1"⟩⟩).1 (by decide)).1).trans (by decide)
  · exact (((c2_amended_primary_rules_wrap
      ⟨⟨1, 2, 3, ""⟩, some ⟨9, 9, 9, "rc.1"⟩⟩).2.1 (by decide)).2).trans (by decide)

/-- C8: `Rule::Release` succeeds exactly when a prerelease exists; without
one it fails with `InvalidPreReleaseVersion` (no new state is produced), and
with one it promotes the prerelease's stable component, dropping the
prerelease. -/
theorem c8_release_rule (v : CurrentVersions) :
    (v.prerelease = none →
      bump v .release =
        .error (.invalidPreReleaseVersion
          "No prerelease version found, but a Release rule was requested")) ∧
    (∀ p, v.prerelease = some p →
      bump v .release = .ok { stable := { p with pre := "" }, prerelease := none }) := by
  refine ⟨fun h => ?_, fun p h => ?_⟩ <;> simp [bump, h]

theorem c8_release_rule_witness :
    bump ⟨⟨1, 2, 3, ""⟩, none⟩ .release =
      .error (.invalidPreReleaseVersion
        "No prerelease version found, but a Release rule was requested") ∧
    bump ⟨⟨1, 2, 3, ""⟩, some ⟨1, 3, 0, "rc.2"⟩⟩ .release =
      .ok ⟨⟨1, 3, 0, ""⟩, none⟩ :=
  ⟨(c8_release_rule ⟨⟨1, 2, 3, ""⟩, none⟩).1 rfl,
    (c8_release_rule ⟨⟨1, 2, 3, ""⟩, some ⟨1, 3, 0, "rc.2"⟩⟩).2 ⟨1, 3, 0, "rc.2"⟩ rfl⟩

/-- C4 counterexample: tag resolution does not enforce the invariant.  With
refs `["v2.0.0", "v1.5.0-rc.1"]` the first prerelease seen after the last
stable tag is retained even though its stable component `1.5.0` is below the
stable version `2.0.0`. -/
theorem c4_tag_resolution_violates_invariant :
    getCurrentVersionsFromTag none ["v2.0.0", "v1.5.0-rc.1"] =
      some ⟨⟨2, 0, 0, ""⟩, some ⟨1, 5, 0, "rc.1"⟩⟩ ∧
    versionsInvariant ⟨⟨2, 0, 0, ""⟩, some ⟨1, 5, 0, "rc.1"⟩⟩ = false := by
  decide

/-- C4 amended: `bump` maintains the invariant under every rule provided the
stable components are below `u64::MAX`, so that the candidate computation
does not wrap — whenever it succeeds, a prerelease in the result has a
stable component at least the stable field.  At `u64::MAX` a `Pre` bump
wraps the candidate below the stable version, and tag resolution and
`get_version` do not enforce the invariant at all. -/
theorem c4_amended_bump_preserves_invariant (cv : CurrentVersions) (rule : Rule)
    (res : CurrentVersions)
    (hmaj : cv.stable.major < 18446744073709551615)
    (hmin : cv.stable.minor < 18446744073709551615)
    (hpat : cv.stable.patch < 18446744073709551615)
    (h : bump cv rule = .ok res) :
    versionsInvariant res = true := by
  cases rule with
  | major =>
    cases h
    simp [versionsInvariant, bumpStableRule_pre cv .major]
  | minor =>
    cases h
    simp [versionsInvariant, bumpStableRule_pre cv .minor]
  | patch =>
    cases h
    simp [versionsInvariant, bumpStableRule_pre cv .patch]
  | release =>
    unfold bump at h
    cases hp : cv.prerelease with
    | none => rw [hp] at h; cases h
    | some p => rw [hp] at h; cases h; simp [versionsInvariant]
  | pre label sr =>
    simp only [bump] at h
    obtain ⟨hs, ps, hp⟩ := bumpPre_ok_shape h
    have ht2 : tripleCmp res.stable
        ⟨(bumpStableRule ⟨cv.stable, none⟩ sr).stable.major,
          (bumpStableRule ⟨cv.stable, none⟩ sr).stable.minor,
          (bumpStableRule ⟨cv.stable, none⟩ sr).stable.patch, ps⟩ = .lt := by
      rw [hs]
      exact tripleCmp_bumpStable ⟨cv.stable, none⟩ sr hmaj hmin hpat
    simp [versionsInvariant, hp, ht2]
    rfl

theorem c4_amended_bump_preserves_invariant_witness :
    versionsInvariant ⟨⟨1, 2, 3, ""⟩, some ⟨1, 3, 0, "rc.0"⟩⟩ = true :=
  c4_amended_bump_preserves_invariant ⟨⟨1, 2, 3, ""⟩, none⟩ (.pre "rc" .minor)
    ⟨⟨1, 2, 3, ""⟩, some ⟨1, 3, 0, "rc.0"⟩⟩ (by decide) (by decide) (by decide)
    (by decide)

/-- C5 counterexample: with a pending prerelease ahead of the stable
version, a `Patch` bump discards it and the latest version decreases
(`1.2.0-rc.0` down to `1.0.1`). -/
theorem c5_latest_can_decrease :
    bump ⟨⟨1, 0, 0, ""⟩, some ⟨1, 2, 0, "rc.0"⟩⟩ .patch =
      .ok ⟨⟨1, 0, 1, ""⟩, none⟩ ∧
    Version.lt (CurrentVersions.latest ⟨⟨1, 0, 1, ""⟩, none⟩)
      (CurrentVersions.latest ⟨⟨1, 0, 0, ""⟩, some ⟨1, 2, 0, "rc.0"⟩⟩) := by
  decide

/-- C5 amended: for inputs without a pending prerelease whose stable
components are below `u64::MAX` (so no `u64` increment wraps), a successful
bump never lowers the latest version under the SemVer ordering; a pending
prerelease may be discarded or retargeted downwards, and at `u64::MAX` the
wrap-around itself lowers the version. -/
theorem c5_amended_no_decrease_without_prerelease (cv : CurrentVersions)
    (rule : Rule) (res : CurrentVersions) (hpre : cv.prerelease = none)
    (hmaj : cv.stable.major < 18446744073709551615)
    (hmin : cv.stable.minor < 18446744073709551615)
    (hpat : cv.stable.patch < 18446744073709551615)
    (h : bump cv rule = .ok res) :
    Version.le (CurrentVersions.latest cv) (CurrentVersions.latest res) := by
  have hlat : CurrentVersions.latest cv = cv.stable := by
    simp [CurrentVersions.latest, hpre]
  cases rule with
  | major =>
    cases h
    simp [CurrentVersions.latest, hpre, bumpStableRule_pre cv .major, Version.le,
      versionCmp_eq_then, tripleCmp_bumpStable cv .major hmaj hmin hpat,
      Ordering.then]
  | minor =>
    cases h
    simp [CurrentVersions.latest, hpre, bumpStableRule_pre cv .minor, Version.le,
      versionCmp_eq_then, tripleCmp_bumpStable cv .minor hmaj hmin hpat,
      Ordering.then]
  | patch =>
    cases h
    simp [CurrentVersions.latest, hpre, bumpStableRule_pre cv .patch, Version.le,
      versionCmp_eq_then, tripleCmp_bumpStable cv .patch hmaj hmin hpat,
      Ordering.then]
  | release =>
    unfold bump at h
    rw [hpre] at h
    cases h
  | pre label sr =>
    simp only [bump] at h
    obtain ⟨hs, ps, hp⟩ := bumpPre_ok_shape h
    have ht2 : tripleCmp cv.stable
        ⟨(bumpStableRule ⟨cv.stable, none⟩ sr).stable.major,
          (bumpStableRule ⟨cv.stable, none⟩ sr).stable.minor,
          (bumpStableRule ⟨cv.stable, none⟩ sr).stable.patch, ps⟩ = .lt :=
      tripleCmp_bumpStable ⟨cv.stable, none⟩ sr hmaj hmin hpat
    simp [CurrentVersions.latest, hpre, hp, Version.le, versionCmp_eq_then, ht2,
      Ordering.then]

theorem c5_amended_no_decrease_without_prerelease_witness :
    Version.le (CurrentVersions.latest ⟨⟨1, 2, 3, ""⟩, none⟩)
      (CurrentVersions.latest ⟨⟨1, 2, 3, ""⟩, some ⟨1, 3, 0, "rc.0"⟩⟩) :=
  c5_amended_no_decrease_without_prerelease ⟨⟨1, 2, 3, ""⟩, none⟩
    (.pre "rc" .minor) ⟨⟨1, 2, 3, ""⟩, some ⟨1, 3, 0, "rc.0"⟩⟩ rfl (by decide)
    (by decide) (by decide) (by decide)

/-- C6 counterexample: with scope consideration active and a package that
declares no scopes, a scoped commit does not apply — matching the repo's own
`consider_scopes_but_none_defined` test and contradicting the claim that all
commits apply to such a package (a breaking scoped commit is dropped and the
rule stays at `Patch`). -/
theorem c6_scoped_commit_skipped_without_scopes :
    commitApplies true none ⟨"fix", some "other", "y", none, false⟩ = false ∧
    (fromSelectedCommits true none
      [⟨"feat", some "scope", "W", none, true⟩,
        ⟨"fix", none, "N", none, false⟩]).rule = some .patch := by
  decide

/-- C6 amended: when scope consideration is inactive every parsed commit
applies; an unscoped commit always applies; a scoped commit applies to a
package with declared scopes exactly when its scope is listed; and a scoped
commit never applies to a package with no declared scopes while scope
consideration is active. -/
theorem c6_amended_scope_filter (considerScopes : Bool)
    (pkgScopes : Option (List String)) (c : Commit) :
    (considerScopes = false → commitApplies considerScopes pkgScopes c = true) ∧
    (c.scope = none → commitApplies considerScopes pkgScopes c = true) ∧
    (∀ s scopes, c.scope = some s → pkgScopes = some scopes →
      (commitApplies true pkgScopes c = true ↔ s ∈ scopes)) ∧
    (∀ s, c.scope = some s → pkgScopes = none →
      commitApplies true pkgScopes c = false) := by
  refine ⟨fun h => ?_, fun h => ?_, fun s scopes hs hp => ?_, fun s hs hp => ?_⟩ <;>
    simp [commitApplies, *]

theorem c6_amended_scope_filter_witness :
    commitApplies false (some ["core"]) ⟨"fix", some "other", "y", none, false⟩ = true ∧
    commitApplies true (some ["core"]) ⟨"feat", none, "z", none, false⟩ = true ∧
    (commitApplies true (some ["core"]) ⟨"feat", some "core", "x", none, false⟩ = true ↔
      "core" ∈ ["core"]) ∧
    commitApplies true none ⟨"fix", some "other", "y", none, false⟩ = false :=
  ⟨(c6_amended_scope_filter false (some ["core"])
      ⟨"fix", some "other", "y", none, false⟩).1 rfl,
    (c6_amended_scope_filter true (some ["core"])
      ⟨"feat", none, "z", none, false⟩).2.1 rfl,
    (c6_amended_scope_filter true (some ["core"])
      ⟨"feat", some "core", "x", none, false⟩).2.2.1 "core" ["core"] rfl rfl,
    (c6_amended_scope_filter true none
      ⟨"fix", some "other", "y", none, false⟩).2.2.2 "other" rfl rfl⟩

theorem sevMax_right_comm (x y z : Option ConventionalRule) :
    sevMax (sevMax x y) z = sevMax (sevMax x z) y := by
  rcases x with _ | (_ | _ | _) <;> rcases y with _ | (_ | _ | _) <;>
    rcases z with _ | (_ | _ | _) <;> rfl

theorem processCommit_rule (acc : ConvCommits) (c : Commit) :
    (processCommit acc c).rule = sevStep acc.rule c := by
  unfold processCommit typeStep sevStep commitSeverity
  cases hb : breakingDescription c with
  | none =>
    by_cases hf : c.typ = "feat"
    · rcases hr : acc.rule with _ | (_ | _ | _) <;> simp [hf, hr, sevMax, sevRank]
    · by_cases hx : c.typ = "fix"
      · rcases hr : acc.rule with _ | (_ | _ | _) <;>
          simp [hf, hx, hr, sevMax, sevRank]
      · rcases hr : acc.rule with _ | (_ | _ | _) <;>
          simp [hf, hx, hr, sevMax, sevRank]
  | some bm =>
    by_cases hd : bm = c.description
    · rcases hr : acc.rule with _ | (_ | _ | _) <;> simp [hd, hr, sevMax, sevRank]
    · by_cases hf : c.typ = "feat"
      · rcases hr : acc.rule with _ | (_ | _ | _) <;>
          simp [hd, hf, hr, sevMax, sevRank]
      · by_cases hx : c.typ = "fix"
        · rcases hr : acc.rule with _ | (_ | _ | _) <;>
            simp [hd, hf, hx, hr, sevMax, sevRank]
        · rcases hr : acc.rule with _ | (_ | _ | _) <;>
            simp [hd, hf, hx, hr, sevMax, sevRank]

theorem foldl_processCommit_rule (l : List Commit) :
    ∀ acc : ConvCommits, (l.foldl processCommit acc).rule = l.foldl sevStep acc.rule := by
  induction l with
  | nil => intro acc; rfl
  | cons c rest ih =>
    intro acc
    simp only [List.foldl_cons]
    rw [ih (processCommit acc c), processCommit_rule]

theorem foldl_sevStep_perm {l₁ l₂ : List Commit} (h : l₁.Perm l₂) :
    ∀ r, l₁.foldl sevStep r = l₂.foldl sevStep r := by
  induction h with
  | nil => intro r; rfl
  | cons x _ ih =>
    intro r
    simp only [List.foldl_cons]
    exact ih _
  | swap x y l =>
    intro r
    simp only [List.foldl_cons]
    rw [show sevStep (sevStep r y) x = sevStep (sevStep r x) y from
      sevMax_right_comm r (commitSeverity y) (commitSeverity x)]
  | trans _ _ ih1 ih2 =>
    intro r
    rw [ih1 r, ih2 r]

/-- C9: the `ConventionalRule` derived by `from_commits` is invariant under
permutation of the commit list — breaking contributes `Major`, `feat`
contributes `Minor` without downgrading `Major`, `fix` contributes `Patch`
only when nothing is set, and the resulting rule is the maximum severity,
independent of order. -/
theorem c9_rule_order_independent (l₁ l₂ : List Commit) (h : l₁.Perm l₂) :
    (fromCommits l₁).rule = (fromCommits l₂).rule := by
  unfold fromCommits
  rw [foldl_processCommit_rule, foldl_processCommit_rule, foldl_sevStep_perm h]

theorem c9_rule_order_independent_witness :
    (fromCommits [⟨"fix", none, "a", none, false⟩,
      ⟨"feat", none, "b", none, true⟩]).rule =
    (fromCommits [⟨"feat", none, "b", none, true⟩,
      ⟨"fix", none, "a", none, false⟩]).rule :=
  c9_rule_order_independent _ _ (List.Perm.swap _ _ _)

theorem processChanges_no_delete {isPre dry : Bool}
    (h : dry = true ∨ isPre = true) :
    ∀ (changes : List ChangeEntry) (deleted dels : List String),
      (processChanges isPre dry changes deleted dels).2 = dels := by
  intro changes
  induction changes with
  | nil => intro deleted dels; rfl
  | cons ch rest ih =>
    intro deleted dels
    rcases h with h | h <;> subst h
    · unfold processChanges
      split <;> simp [ih]
    · unfold processChanges
      simp [ih]

theorem processChanges_nodup (isPre dry : Bool) :
    ∀ (changes : List ChangeEntry) (deleted dels : List String),
      dels.Nodup → (∀ x ∈ dels, x ∈ deleted) →
      (processChanges isPre dry changes deleted dels).2.Nodup ∧
        ∀ x ∈ (processChanges isPre dry changes deleted dels).2,
          x ∈ (processChanges isPre dry changes deleted dels).1 := by
  intro changes
  induction changes with
  | nil => intro deleted dels hnd hsub; exact ⟨hnd, hsub⟩
  | cons ch rest ih =>
    intro deleted dels hnd hsub
    unfold processChanges
    by_cases hg : (!deleted.contains ch.fileName && !isPre) = true
    · have hnotmem : ch.fileName ∉ deleted := by
        have hg2 := hg
        simp at hg2
        exact hg2.1
      have hnotdels : ch.fileName ∉ dels := fun hx => hnotmem (hsub _ hx)
      rw [if_pos hg]
      apply ih
      · cases dry <;> simp [hnd, List.nodup_append, hnotdels]
      · intro x hx
        cases dry <;> simp at hx ⊢ <;>
          first
            | exact Or.imp (fun h2 => hsub x h2) id hx
            | exact Or.inl (hsub x hx)
    · rw [if_neg hg]
      exact ih deleted dels hnd hsub

theorem processPackages_no_delete {isPre dry : Bool}
    (h : dry = true ∨ isPre = true) :
    ∀ (pkgs : List PackageCS) (releases : List (String × List ChangeEntry))
      (deleted dels : List String),
      (processPackages isPre dry pkgs releases deleted dels).2 = dels := by
  intro pkgs
  induction pkgs with
  | nil => intros; rfl
  | cons pkg rest ih =>
    intro releases deleted dels
    unfold processPackages
    rcases hr : removeKey (pkg.name.getD defaultChangesetPackageName) releases with
      ⟨_ | changes, releases'⟩
    · simp [ih]
    · simp [ih, processChanges_no_delete h]

theorem processPackages_nodup (isPre dry : Bool) :
    ∀ (pkgs : List PackageCS) (releases : List (String × List ChangeEntry))
      (deleted dels : List String),
      dels.Nodup → (∀ x ∈ dels, x ∈ deleted) →
      (processPackages isPre dry pkgs releases deleted dels).2.Nodup := by
  intro pkgs
  induction pkgs with
  | nil => intro releases deleted dels hnd hsub; exact hnd
  | cons pkg rest ih =>
    intro releases deleted dels hnd hsub
    unfold processPackages
    rcases hr : removeKey (pkg.name.getD defaultChangesetPackageName) releases with
      ⟨_ | changes, releases'⟩
    · exact ih releases' deleted dels hnd hsub
    · obtain ⟨h1, h2⟩ := processChanges_nodup isPre dry changes deleted dels hnd hsub
      exact ih releases' _ _ h1 h2

/-- C10: in a dry run, or when the target release is a prerelease, no
changeset entry file is ever deleted; otherwise each entry file is deleted
at most once across all packages that share it, thanks to the per-run set of
already-deleted ids. -/
theorem c10_deletion_policy (packages : List PackageCS) (isPrerelease dryRun : Bool)
    (releases : List (String × List ChangeEntry)) :
    ((dryRun = true ∨ isPrerelease = true) →
      (addReleasesFromChangeset packages isPrerelease dryRun releases).2 = []) ∧
    (addReleasesFromChangeset packages isPrerelease dryRun releases).2.Nodup := by
  constructor
  · intro h
    exact processPackages_no_delete h packages releases [] []
  · exact processPackages_nodup isPrerelease dryRun packages releases [] []
      List.nodup_nil (by intro x hx; cases hx)

theorem c10_deletion_policy_witness :
    (addReleasesFromChangeset [⟨some "a", []⟩] true false
      [("a", [⟨"f1", "s"⟩])]).2 = [] ∧
    (addReleasesFromChangeset [⟨some "a", []⟩, ⟨some "b", []⟩] false false
      [("a", [⟨"f1", "s"⟩]), ("b", [⟨"f1", "s"⟩])]).2.Nodup :=
  ⟨(c10_deletion_policy [⟨some "a", []⟩] true false [("a", [⟨"f1", "s"⟩])]).1
      (Or.inr rfl),
    (c10_deletion_policy [⟨some "a", []⟩, ⟨some "b", []⟩] false false
      [("a", [⟨"f1", "s"⟩]), ("b", [⟨"f1", "s"⟩])]).2⟩

theorem orElse_none_right {α : Type} (a : Option α) :
    (a.orElse fun _ => none) = a := by
  cases a <;> rfl

theorem orElse_assoc {α : Type} (a : Option α) (f g : Unit → Option α) :
    (a.orElse f).orElse g = a.orElse fun _ => ((f ()).orElse g) := by
  cases a <;> rfl

theorem getD_orElse {α : Type} (b : Option α) (v : α) :
    some (b.getD v) = b.orElse fun _ => some v := by
  cases b <;> rfl

theorem resolveStep_eq (pat : String) (st : Option Version × Option Version)
    (tag : String) :
    resolveStep pat st tag =
      match candVersion pat tag with
      | some v =>
        if v.pre = "" then (some v, none) else (st.1, some (st.2.getD v))
      | none => st := by
  unfold resolveStep candVersion
  by_cases h : strStartsWith tag pat <;> simp [h]

theorem stableCand_of_none {pat tag : String} (hc : candVersion pat tag = none) :
    stableCand pat tag = none := by
  simp [stableCand, hc]

theorem preCand_of_none {pat tag : String} (hc : candVersion pat tag = none) :
    preCand pat tag = none := by
  simp [preCand, hc]

theorem stableCand_of_stable {pat tag : String} {v : Version}
    (hc : candVersion pat tag = some v) (hp : v.pre = "") :
    stableCand pat tag = some v := by
  simp [stableCand, hc, hp]

theorem preCand_of_stable {pat tag : String} {v : Version}
    (hc : candVersion pat tag = some v) (hp : v.pre = "") :
    preCand pat tag = none := by
  simp [preCand, hc, hp]

theorem stableCand_of_pre {pat tag : String} {v : Version}
    (hc : candVersion pat tag = some v) (hp : ¬v.pre = "") :
    stableCand pat tag = none := by
  simp [stableCand, hc, hp]

theorem preCand_of_pre {pat tag : String} {v : Version}
    (hc : candVersion pat tag = some v) (hp : ¬v.pre = "") :
    preCand pat tag = some v := by
  simp [preCand, hc, hp]

theorem resolveLoop_spec (pat : String) (tags : List String) :
    ∀ st : Option Version × Option Version,
      tags.foldl (resolveStep pat) st =
        match lastStableAndRest pat tags with
        | some sr => (some sr.1, firstPreCand pat sr.2)
        | none => (st.1, st.2.orElse fun _ => firstPreCand pat tags) := by
  induction tags with
  | nil =>
    intro st
    simp [lastStableAndRest, firstPreCand, orElse_none_right]
  | cons t rest ih =>
    intro st
    simp only [List.foldl_cons]
    rw [ih (resolveStep pat st t), resolveStep_eq]
    cases hc : candVersion pat t with
    | none =>
      cases hl : lastStableAndRest pat rest with
      | some sr =>
        simp [lastStableAndRest, hl]
      | none =>
        simp [lastStableAndRest, hl, stableCand_of_none hc, firstPreCand,
          preCand_of_none hc]
    | some v =>
      by_cases hp : v.pre = ""
      · cases hl : lastStableAndRest pat rest with
        | some sr =>
          simp [hp, lastStableAndRest, hl]
        | none =>
          simp [hp, lastStableAndRest, hl, stableCand_of_stable hc hp]
      · cases hl : lastStableAndRest pat rest with
        | some sr =>
          simp [hp, lastStableAndRest, hl]
        | none =>
          simp only [lastStableAndRest, hl, stableCand_of_pre hc hp,
            Option.map_none, hp, if_false, if_neg hp, firstPreCand,
            preCand_of_pre hc hp]
          cases h2 : st.2 <;> simp [h2, Option.orElse]

/-- C1 counterexample: the resolver is not order-independent — reversing the
refs `["v1.0.0", "v2.0.0"]` changes the result, because the last stable
candidate wins rather than the maximum. -/
theorem c1_order_dependent :
    getCurrentVersionsFromTag none ["v1.0.0", "v2.0.0"] ≠
      getCurrentVersionsFromTag none ["v2.0.0", "v1.0.0"] := by
  decide

/-- C1 amended: candidates are the refs carrying the literal pattern
(`"<name>/v"` or `"v"`) as a prefix whose text after deleting every
occurrence of the pattern parses as a semantic version; the resolver returns
the last stable candidate in supply order (not the maximum) as `stable`, and
as `prerelease` the first prerelease candidate supplied after that last
stable candidate; the result therefore depends on the order of the refs. -/
theorem c1_amended_last_stable_first_pre (pfx : Option String)
    (tags : List String) :
    getCurrentVersionsFromTag pfx tags =
      match lastStableAndRest (tagPattern pfx) tags with
      | some sr =>
        some { stable := sr.1,
               prerelease := firstPreCand (tagPattern pfx) sr.2 }
      | none => none := by
  unfold getCurrentVersionsFromTag
  rw [resolveLoop_spec (tagPattern pfx) tags (none, none)]
  cases hl : lastStableAndRest (tagPattern pfx) tags with
  | none => simp
  | some sr => simp

theorem digitChar_isDigit {d : Nat} (h : d < 10) : (digitChar d).isDigit = true := by
  interval_cases d <;> decide

theorem digitChar_ne_zero {d : Nat} (h1 : 0 < d) (h2 : d < 10) :
    digitChar d ≠ '0' := by
  interval_cases d <;> decide

theorem natToDigits_all_digit (fuel : Nat) :
    ∀ (n : Nat) (acc : List Char), acc.all Char.isDigit = true →
      (natToDigits fuel n acc).all Char.isDigit = true := by
  induction fuel with
  | zero => intro n acc h; exact h
  | succ fuel ih =>
    intro n acc h
    simp only [natToDigits]
    by_cases hn : n < 10
    · rw [if_pos hn]
      simp [digitChar_isDigit hn, h]
    · rw [if_neg hn]
      exact ih (n / 10) _ (by simp [digitChar_isDigit (Nat.mod_lt _ (by omega)), h])

theorem natToDigits_ne_nil (fuel : Nat) :
    ∀ (n : Nat) (acc : List Char), acc ≠ [] ∨ fuel ≠ 0 →
      natToDigits fuel n acc ≠ [] := by
  induction fuel with
  | zero =>
    intro n acc h
    rcases h with h | h
    · exact h
    · exact absurd rfl h
  | succ fuel ih =>
    intro n acc _
    simp only [natToDigits]
    by_cases hn : n < 10
    · rw [if_pos hn]
      simp
    · rw [if_neg hn]
      exact ih _ _ (Or.inl (by simp))

theorem natToDigits_head (fuel : Nat) :
    ∀ (n : Nat) (acc : List Char), 0 < n → n < fuel →
      (natToDigits fuel n acc).headD ' ' ≠ '0' := by
  induction fuel with
  | zero => intro n acc h1 h2; omega
  | succ fuel ih =>
    intro n acc h1 h2
    simp only [natToDigits]
    by_cases hn : n < 10
    · rw [if_pos hn]
      simpa using digitChar_ne_zero h1 hn
    · rw [if_neg hn]
      exact ih (n / 10) _ (by omega) (by omega)

theorem all_identChar_of_digits {l : List Char} (h : l.all Char.isDigit = true) :
    l.all identChar = true := by
  rw [List.all_eq_true] at h ⊢
  intro c hc
  have hcd := h c hc
  simp only [identChar, Char.isAlphanum, Bool.or_eq_true]
  exact Or.inl (Or.inr hcd)

theorem validPreIdent_natToDecimal (n : Nat) :
    validPreIdent (natToDecimal n).data = true := by
  by_cases h0 : n = 0
  · subst h0
    decide
  · have hall : (natToDigits (n + 1) n []).all Char.isDigit = true :=
      natToDigits_all_digit _ _ _ rfl
    have hne : natToDigits (n + 1) n [] ≠ [] :=
      natToDigits_ne_nil _ _ _ (Or.inr (by omega))
    have hhead : (natToDigits (n + 1) n []).headD ' ' ≠ '0' :=
      natToDigits_head _ _ _ (by omega) (by omega)
    show validPreIdent (natToDigits (n + 1) n []) = true
    simp [validPreIdent, hall, all_identChar_of_digits hall, hne, hhead,
      List.isEmpty_iff]
    exact Or.inr (by simpa using hhead)

theorem not_dot_of_identChar {l : List Char} (h : l.all identChar = true) :
    ∀ c ∈ l, ¬ c = '.' := by
  rw [List.all_eq_true] at h
  intro c hc he
  have hi := h c hc
  rw [he] at hi
  exact absurd hi (by decide)

theorem not_dot_of_digits {l : List Char} (h : l.all Char.isDigit = true) :
    ∀ c ∈ l, ¬ c = '.' := by
  rw [List.all_eq_true] at h
  intro c hc he
  have hi := h c hc
  rw [he] at hi
  exact absurd hi (by decide)

theorem validPreIdent_all_identChar {l : List Char}
    (h : validPreIdent l = true) : l.all identChar = true := by
  simp only [validPreIdent, Bool.and_eq_true] at h
  exact h.1.2

theorem splitOnChar_ne_nil (sep : Char) (l : List Char) :
    splitOnChar sep l ≠ [] := by
  induction l with
  | nil => simp [splitOnChar]
  | cons c rest ih =>
    simp only [splitOnChar]
    rcases h : splitOnChar sep rest with _ | ⟨a, b⟩
    · exact absurd h ih
    · by_cases hc : c = sep <;> simp [hc]

theorem splitOnChar_not_mem (sep : Char) (l : List Char)
    (h : ∀ c ∈ l, ¬ c = sep) : splitOnChar sep l = [l] := by
  induction l with
  | nil => rfl
  | cons c rest ih =>
    have hc : ¬ c = sep := h c (by simp)
    have ih2 := ih (fun x hx => h x (by simp [hx]))
    simp only [splitOnChar, ih2]
    simp [hc]

theorem splitOnChar_append (sep : Char) (a b : List Char)
    (h : ∀ c ∈ a, ¬ c = sep) :
    splitOnChar sep (a ++ sep :: b) = a :: splitOnChar sep b := by
  induction a with
  | nil =>
    simp only [List.nil_append, splitOnChar]
    rcases hs : splitOnChar sep b with _ | ⟨x, y⟩
    · exact absurd hs (splitOnChar_ne_nil sep b)
    · simp
  | cons c a2 ih =>
    have hc : ¬ c = sep := h c (by simp)
    have ih2 := ih (fun x hx => h x (by simp [hx]))
    simp only [List.cons_append, splitOnChar, List.append_eq]
    rw [ih2]
    simp [hc]

theorem label_suffix_data (label suffix : String) :
    (label ++ "." ++ suffix).data = label.data ++ '.' :: suffix.data := by
  simp [String.data_append]

theorem validPre_label_suffix {label suffix : String}
    (hl : validPreIdent label.data = true)
    (hs : validPreIdent suffix.data = true)
    (hsd : ∀ c ∈ suffix.data, ¬ c = '.') :
    validPre (label ++ "." ++ suffix) = true := by
  have hld : ∀ c ∈ label.data, ¬ c = '.' :=
    not_dot_of_identChar (validPreIdent_all_identChar hl)
  simp only [validPre, label_suffix_data, validPreChars]
  rw [splitOnChar_append '.' label.data suffix.data hld,
    splitOnChar_not_mem '.' suffix.data hsd]
  simp [hl, hs]

theorem parseU16_digits {l : List Char} (hne : l ≠ [])
    (hd : l.all Char.isDigit = true) (hv : digitsToNat l < 65536) :
    parseU16 (String.mk l) = some (digitsToNat l) := by
  rcases l with _ | ⟨c, cs⟩
  · exact absurd rfl hne
  · have hc : c.isDigit = true := List.all_eq_true.1 hd c (by simp)
    have hcp : ¬ c = '+' := fun he => by
      rw [he] at hc
      exact absurd hc (by decide)
    simp [parseU16, strStartsWith, charsStartsWith, hcp, hd, hv]

/-- The candidate next stable version `bump_pre` computes by applying the
stable rule (with the zero-major logic) to the current stable version. -/
def preCandidate (cv : CurrentVersions) (sr : ConventionalRule) : Version :=
  (bumpStableRule ⟨cv.stable, none⟩ sr).stable

theorem stringDataInj {a b : String} (h : a.data = b.data) : a = b := by
  cases a
  cases b
  cases h
  rfl

/-- C7 counterexample: a malformed existing prerelease string (here the
one-part `rc`) does not make `bump` with `Rule::Pre` fail; it is silently
ignored and the operation succeeds with a fresh suffix 0. -/
theorem c7_malformed_prerelease_not_an_error :
    bump ⟨⟨1, 2, 3, ""⟩, some ⟨1, 3, 0, "rc"⟩⟩ (.pre "rc" .minor) =
      .ok ⟨⟨1, 2, 3, ""⟩, some ⟨1, 3, 0, "rc.0"⟩⟩ := by
  decide

/-- C7 amended: a malformed existing prerelease — not exactly two
dot-separated parts, or a numeric suffix that does not parse as a `u16` — is
silently coerced rather than rejected: the prerelease restarts at suffix 0.
`bump_pre` fails only when the freshly built `label.n` string is itself an
invalid prerelease. -/
theorem c7_amended_malformed_prerelease_coerced (cv : CurrentVersions)
    (label : String) (sr : ConventionalRule) (p : Version)
    (hp : cv.prerelease = some p) (hl : validPreIdent label.data = true)
    (hm : (splitOnChar '.' p.pre.data).length ≠ 2 ∨
      parseU16 (String.mk ((splitOnChar '.' p.pre.data).getD 1 [])) = none) :
    bump cv (.pre label sr) =
      .ok { stable := cv.stable,
            prerelease := some ⟨(preCandidate cv sr).major,
              (preCandidate cv sr).minor, (preCandidate cv sr).patch,
              label ++ ".0"⟩ } := by
  have happ : label ++ "." ++ "0" = label ++ ".0" := by
    rw [String.append_assoc]
    rfl
  have hvalid : validPre (label ++ ".0") = true := by
    rw [← happ]
    exact validPre_label_suffix hl (by decide) (by decide)
  simp only [bump, hp, bumpPre, Option.some_bind, preCandidate]
  rcases hm with hm | hm
  · simp [hm, hvalid]
  · have hm2 : parseU16 ⟨(splitOnChar '.' p.pre.data)[1]?.getD []⟩ = none := by
      simpa using hm
    simp [hm2, hvalid]

theorem c7_amended_malformed_prerelease_coerced_witness :
    bump ⟨⟨1, 2, 3, ""⟩, some ⟨1, 3, 0, "rc.1.2"⟩⟩ (.pre "rc" .minor) =
      .ok ⟨⟨1, 2, 3, ""⟩, some ⟨1, 3, 0, "rc.0"⟩⟩ :=
  c7_amended_malformed_prerelease_coerced ⟨⟨1, 2, 3, ""⟩, some ⟨1, 3, 0, "rc.1.2"⟩⟩
    "rc" .minor ⟨1, 3, 0, "rc.1.2"⟩ rfl (by decide) (Or.inl (by decide))

/-- C3 counterexample: the numeric suffix lives in a `u16`; with a matching
triple and label but an existing suffix of 70000 the code restarts at 0
instead of producing 70001, so the claim as stated fails. -/
theorem c3_suffix_not_incremented_beyond_u16 :
    bump ⟨⟨1, 2, 3, ""⟩, some ⟨1, 3, 0, "rc.70000"⟩⟩ (.pre "rc" .minor) =
      .ok ⟨⟨1, 2, 3, ""⟩, some ⟨1, 3, 0, "rc.0"⟩⟩ ∧
    (Except.ok ⟨⟨1, 2, 3, ""⟩, some ⟨1, 3, 0, "rc.0"⟩⟩ :
        Except StepError CurrentVersions) ≠
      .ok ⟨⟨1, 2, 3, ""⟩, some ⟨1, 3, 0, "rc.70001"⟩⟩ := by
  decide

/-- C3 amended: `Rule::Pre` leaves the stable component unchanged and
targets the candidate obtained by applying the stable rule; the numeric
suffix is the old suffix plus 1 when the existing prerelease has exactly the
candidate triple, the same label, and a suffix that parses as a `u16` small
enough to increment (at most 65534); it restarts at 0 with no prior
prerelease, a different target triple, or a different label. -/
theorem c3_pre_rule_suffix (cv : CurrentVersions) (label : String)
    (sr : ConventionalRule) (hl : validPreIdent label.data = true) :
    (cv.prerelease = none →
      bump cv (.pre label sr) =
        .ok ⟨cv.stable, some ⟨(preCandidate cv sr).major,
          (preCandidate cv sr).minor, (preCandidate cv sr).patch,
          label ++ ".0"⟩⟩) ∧
    (∀ q suffix, cv.prerelease = some q →
      q.pre = label ++ "." ++ suffix →
      suffix.data ≠ [] → suffix.data.all Char.isDigit = true →
      digitsToNat suffix.data < 65535 →
      q.major = (preCandidate cv sr).major →
      q.minor = (preCandidate cv sr).minor →
      q.patch = (preCandidate cv sr).patch →
      bump cv (.pre label sr) =
        .ok ⟨cv.stable, some ⟨(preCandidate cv sr).major,
          (preCandidate cv sr).minor, (preCandidate cv sr).patch,
          label ++ "." ++ natToDecimal (digitsToNat suffix.data + 1)⟩⟩) ∧
    (∀ q, cv.prerelease = some q →
      (q.major ≠ (preCandidate cv sr).major ∨
        q.minor ≠ (preCandidate cv sr).minor ∨
        q.patch ≠ (preCandidate cv sr).patch) →
      bump cv (.pre label sr) =
        .ok ⟨cv.stable, some ⟨(preCandidate cv sr).major,
          (preCandidate cv sr).minor, (preCandidate cv sr).patch,
          label ++ ".0"⟩⟩) ∧
    (∀ q label2 suffix, cv.prerelease = some q →
      q.pre = label2 ++ "." ++ suffix →
      validPreIdent label2.data = true → label2 ≠ label →
      suffix.data ≠ [] → suffix.data.all Char.isDigit = true →
      bump cv (.pre label sr) =
        .ok ⟨cv.stable, some ⟨(preCandidate cv sr).major,
          (preCandidate cv sr).minor, (preCandidate cv sr).patch,
          label ++ ".0"⟩⟩) := by
  have happ : label ++ "." ++ "0" = label ++ ".0" := by
    rw [String.append_assoc]
    rfl
  have hvalid : validPre (label ++ ".0") = true := by
    rw [← happ]
    exact validPre_label_suffix hl (by decide) (by decide)
  have hld : ∀ c ∈ label.data, ¬ c = '.' :=
    not_dot_of_identChar (validPreIdent_all_identChar hl)
  refine ⟨fun hnone => ?_, fun q suffix hq hqpre hsne hsd hn hM hm2 hp3 => ?_,
    fun q hq hne => ?_, fun q label2 suffix hq hqpre hl2 hll hsne hsd => ?_⟩
  · simp only [bump, hnone, bumpPre, Option.none_bind, Option.getD_none,
      preCandidate]
    simp [hvalid]
  · have hparts : splitOnChar '.' q.pre.data = [label.data, suffix.data] := by
      rw [hqpre, label_suffix_data, splitOnChar_append '.' _ _ hld,
        splitOnChar_not_mem '.' _ (not_dot_of_digits hsd)]
    have hparse : parseU16 (String.mk suffix.data) =
        some (digitsToNat suffix.data) :=
      parseU16_digits hsne hsd (by omega)
    have hmod : (digitsToNat suffix.data + 1) % 65536 =
        digitsToNat suffix.data + 1 :=
      Nat.mod_eq_of_lt (by omega)
    have hdec : (natToDecimal (digitsToNat suffix.data + 1)).data.all
        Char.isDigit = true :=
      natToDigits_all_digit _ _ _ rfl
    have hvalid2 : validPre
        (label ++ "." ++ natToDecimal (digitsToNat suffix.data + 1)) = true :=
      validPre_label_suffix hl (validPreIdent_natToDecimal _)
        (not_dot_of_digits hdec)
    simp only [bump, hq, bumpPre, Option.some_bind, preCandidate] at hM hm2 hp3 ⊢
    simp [hM, hm2, hp3, hparts, hparse, hmod, hvalid2]
  · simp only [bump, hq, bumpPre, Option.some_bind, preCandidate] at hne ⊢
    rcases hne with hd | hd | hd <;> simp [hd, hvalid]
  · have hld2 : ∀ c ∈ label2.data, ¬ c = '.' :=
      not_dot_of_identChar (validPreIdent_all_identChar hl2)
    have hparts : splitOnChar '.' q.pre.data = [label2.data, suffix.data] := by
      rw [hqpre, label_suffix_data, splitOnChar_append '.' _ _ hld2,
        splitOnChar_not_mem '.' _ (not_dot_of_digits hsd)]
    have hdd : label2.data ≠ label.data := fun he => hll (stringDataInj he)
    simp only [bump, hq, bumpPre, Option.some_bind, preCandidate]
    simp [hparts, hdd, hvalid]

theorem c3_pre_rule_suffix_witness :
    bump ⟨⟨1, 2, 3, ""⟩, some ⟨1, 3, 0, "rc.0"⟩⟩ (.pre "rc" .minor) =
      .ok ⟨⟨1, 2, 3, ""⟩, some ⟨1, 3, 0, "rc.1"⟩⟩ ∧
    bump ⟨⟨1, 2, 3, ""⟩, none⟩ (.pre "rc" .minor) =
      .ok ⟨⟨1, 2, 3, ""⟩, some ⟨1, 3, 0, "rc.0"⟩⟩ ∧
    bump ⟨⟨1, 2, 3, ""⟩, some ⟨1, 3, 0, "beta.4"⟩⟩ (.pre "rc" .minor) =
      .ok ⟨⟨1, 2, 3, ""⟩, some ⟨1, 3, 0, "rc.0"⟩⟩ ∧
    bump ⟨⟨1, 2, 3, ""⟩, some ⟨1, 2, 4, "rc.7"⟩⟩ (.pre "rc" .minor) =
      .ok ⟨⟨1, 2, 3, ""⟩, some ⟨1, 3, 0, "rc.0"⟩⟩ := by
  refine ⟨?_, ?_, ?_, ?_⟩
  · have h := (c3_pre_rule_suffix ⟨⟨1, 2, 3, ""⟩, some ⟨1, 3, 0, "rc.0"⟩⟩ "rc"
      .minor (by decide)).2.1 ⟨1, 3, 0, "rc.0"⟩ "0" rfl (by decide) (by decide)
      (by decide) (by decide) (by decide) (by decide) (by decide)
    exact h.trans (by decide)
  · have h := (c3_pre_rule_suffix ⟨⟨1, 2, 3, ""⟩, none⟩ "rc" .minor
      (by decide)).1 rfl
    exact h.trans (by decide)
  · have h := (c3_pre_rule_suffix ⟨⟨1, 2, 3, ""⟩, some ⟨1, 3, 0, "beta.4"⟩⟩ "rc"
      .minor (by decide)).2.2.2 ⟨1, 3, 0, "beta.4"⟩ "beta" "4" rfl (by decide)
      (by decide) (by decide) (by decide) (by decide)
    exact h.trans (by decide)
  · have h := (c3_pre_rule_suffix ⟨⟨1, 2, 3, ""⟩, some ⟨1, 2, 4, "rc.7"⟩⟩ "rc"
      .minor (by decide)).2.2.1 ⟨1, 2, 4, "rc.7"⟩ rfl (Or.inr (Or.inr (by decide)))
    exact h.trans (by decide)

end Dobby

/-!
Sanity checks: concrete evaluations of the embedded definitions mirroring
the repository's own unit tests (`test_bump`, `test_conventional_commits`),
the spec's worked examples, and the `u64` wrap-around boundary.
-/

open Dobby in
example :
    bump ⟨⟨18446744073709551615, 0, 0, ""⟩, none⟩ .patch =
      .ok ⟨⟨18446744073709551615, 0, 1, ""⟩, none⟩ := by decide
open Dobby in
example :
    bump ⟨⟨18446744073709551615, 0, 0, ""⟩, none⟩ (.pre "rc" .major) =
      .ok ⟨⟨18446744073709551615, 0, 0, ""⟩, some ⟨0, 0, 0, "rc.0"⟩⟩ ∧
    versionsInvariant ⟨⟨18446744073709551615, 0, 0, ""⟩, some ⟨0, 0, 0, "rc.0"⟩⟩ =
      false := by decide
open Dobby in
example : Version.parse "18446744073709551615.0.0" =
    some ⟨18446744073709551615, 0, 0, ""⟩ := by decide

open Dobby in
example :
    fromCommits [⟨"feat", none, "add a feature", none, false⟩,
      ⟨"feat", none, "another feature", none, false⟩] =
      ⟨some .minor, ["add a feature", "another feature"], [], []⟩ := by decide
open Dobby in
example :
    fromCommits [⟨"fix", none, "a bug", none, false⟩,
      ⟨"feat", none, "add a feature", none, true⟩,
      ⟨"feat", none, "add another feature", none, false⟩] =
      ⟨some .major, ["add another feature"], ["a bug"], ["add a feature"]⟩ := by decide
open Dobby in
example :
    fromCommits [⟨"fix", none, "a bug", some "something broke", false⟩,
      ⟨"fix", none, "another bug", none, false⟩,
      ⟨"feat", none, "add a feature", none, false⟩] =
      ⟨some .major, ["add a feature"], ["a bug", "another bug"],
        ["something broke"]⟩ := by decide
open Dobby in
example :
    (fromSelectedCommits true (some ["scope"])
      [⟨"feat", some "wrong_scope", "W", none, true⟩,
       ⟨"feat", some "scope", "R", none, false⟩,
       ⟨"fix", none, "N", none, false⟩]).rule = some .minor := by decide
open Dobby in
example :
    (fromSelectedCommits true none
      [⟨"feat", some "scope", "W", none, true⟩,
       ⟨"fix", none, "N", none, false⟩]).rule = some .patch := by decide
open Dobby in
example :
    (fromSelectedCommits false (some ["scope"])
      [⟨"feat", some "wrong_scope", "W", none, true⟩,
       ⟨"fix", none, "N", none, false⟩]).rule = some .major := by decide
open Dobby in
example :
    addReleasesFromChangeset
      [⟨some "a", []⟩, ⟨some "b", []⟩] false false
      [("a", [⟨"f1", "s"⟩, ⟨"f2", "t"⟩]), ("b", [⟨"f1", "s"⟩])] =
      ([⟨some "a", [⟨"f1", "s"⟩, ⟨"f2", "t"⟩]⟩, ⟨some "b", [⟨"f1", "s"⟩]⟩],
        ["f1", "f2"]) := by decide
open Dobby in
example :
    (addReleasesFromChangeset [⟨some "a", []⟩] false true
      [("a", [⟨"f1", "s"⟩])]).2 = [] := by decide
open Dobby in
example :
    (addReleasesFromChangeset [⟨some "a", []⟩] true false
      [("a", [⟨"f1", "s"⟩])]).2 = [] := by decide
open Dobby in
example :
    getCurrentVersionsFromTag none ["v1.0.0", "v1.1.0-rc.1"] =
      some { stable := ⟨1, 0, 0, ""⟩, prerelease := some ⟨1, 1, 0, "rc.1"⟩ } := by decide
open Dobby in
example :
    getCurrentVersionsFromTag none ["v1.0.0", "v1.1.0-rc.1", "v1.1.0"] =
      some { stable := ⟨1, 1, 0, ""⟩, prerelease := none } := by decide
open Dobby in
example :
    getCurrentVersionsFromTag none ["v2.0.0", "v1.0.0"] =
      some { stable := ⟨1, 0, 0, ""⟩, prerelease := none } := by decide
open Dobby in
example :
    getCurrentVersionsFromTag none ["v2.0.0", "v1.5.0-rc.1"] =
      some { stable := ⟨2, 0, 0, ""⟩, prerelease := some ⟨1, 5, 0, "rc.1"⟩ } := by decide
open Dobby in
example :
    getCurrentVersionsFromTag (some "pkg") ["pkg/v1.2.3", "v9.9.9"] =
      some { stable := ⟨1, 2, 3, ""⟩, prerelease := none } := by decide
open Dobby in
example :
    bump ⟨⟨1, 2, 3, ""⟩, none⟩ .major = .ok ⟨⟨2, 0, 0, ""⟩, none⟩ := by decide
open Dobby in
example :
    bump ⟨⟨0, 1, 2, ""⟩, none⟩ .major = .ok ⟨⟨0, 2, 0, ""⟩, none⟩ := by decide
open Dobby in
example :
    bump ⟨⟨0, 1, 2, ""⟩, none⟩ .minor = .ok ⟨⟨0, 1, 3, ""⟩, none⟩ := by decide
open Dobby in
example :
    bump ⟨⟨1, 2, 3, ""⟩, none⟩ (.pre "rc" .minor) =
      .ok ⟨⟨1, 2, 3, ""⟩, some ⟨1, 3, 0, "rc.0"⟩⟩ := by decide
open Dobby in
example :
    bump ⟨⟨1, 2, 3, ""⟩, some ⟨1, 3, 0, "rc.0"⟩⟩ (.pre "rc" .minor) =
      .ok ⟨⟨1, 2, 3, ""⟩, some ⟨1, 3, 0, "rc.1"⟩⟩ := by decide
open Dobby in
example :
    bump ⟨⟨1, 2, 3, ""⟩, some ⟨1, 2, 4, "rc.0"⟩⟩ (.pre "rc" .minor) =
      .ok ⟨⟨1, 2, 3, ""⟩, some ⟨1, 3, 0, "rc.0"⟩⟩ := by decide
open Dobby in
example :
    bump ⟨⟨1, 2, 3, ""⟩, some ⟨1, 3, 0, "beta.0"⟩⟩ (.pre "rc" .minor) =
      .ok ⟨⟨1, 2, 3, ""⟩, some ⟨1, 3, 0, "rc.0"⟩⟩ := by decide
open Dobby in
example :
    bump ⟨⟨1, 2, 3, ""⟩, some ⟨1, 2, 3, "rc.0"⟩⟩ .release =
      .ok ⟨⟨1, 2, 3, ""⟩, none⟩ := by decide
open Dobby in
example :
    bump ⟨⟨1, 2, 3, ""⟩, some ⟨1, 3, 0, "rc"⟩⟩ (.pre "rc" .minor) =
      .ok ⟨⟨1, 2, 3, ""⟩, some ⟨1, 3, 0, "rc.0"⟩⟩ := by decide
open Dobby in
example :
    bump ⟨⟨1, 2, 3, ""⟩, some ⟨1, 3, 0, "rc.00x"⟩⟩ (.pre "rc" .minor) =
      .ok ⟨⟨1, 2, 3, ""⟩, some ⟨1, 3, 0, "rc.0"⟩⟩ := by decide
open Dobby in
example :
    bump ⟨⟨1, 2, 3, ""⟩, none⟩ (.pre "" .minor) =
      .error (.invalidPreReleaseVersion ".0") := by decide

open Dobby in
example : Version.parse "1.2.3" = some ⟨1, 2, 3, ""⟩ := by decide
open Dobby in
example : Version.parse "1.2.3-rc.1" = some ⟨1, 2, 3, "rc.1"⟩ := by decide
open Dobby in
example : Version.parse "01.2.3" = none := by decide
open Dobby in
example : Version.parse "1.2.3-rc.01" = none := by decide
open Dobby in
example : Version.parse "1.2.3-rc..1" = none := by decide
open Dobby in
example : Version.parse "1.2.3+build.01" = some ⟨1, 2, 3, ""⟩ := by decide
open Dobby in
example : Version.parse "1.2.3-" = none := by decide
open Dobby in
example : Version.parse "1.2" = none := by decide
open Dobby in
example : Version.lt ⟨1, 2, 3, "rc.1"⟩ ⟨1, 2, 3, ""⟩ := by decide
open Dobby in
example : Version.lt ⟨1, 2, 3, "rc.2"⟩ ⟨1, 2, 3, "rc.10"⟩ := by decide
open Dobby in
example : Version.lt ⟨1, 2, 3, "beta"⟩ ⟨1, 2, 3, "rc"⟩ := by decide
open Dobby in
example : Version.lt ⟨1, 2, 3, "rc"⟩ ⟨1, 2, 3, "rc.0"⟩ := by decide
open Dobby in
example : Version.lt ⟨1, 2, 3, "1"⟩ ⟨1, 2, 3, "a"⟩ := by decide
open Dobby in
example : strReplace "vv1.0.0" "v" "" = "1.0.0" := by decide
open Dobby in
example : strReplace "v1.0.0-dev.1" "v" "" = "1.0.0-de.1" := by decide

